import Mathlib

/-!
# Harbour planner — verification of the optimization frontend

Shallow embedding of the harbour planner application (React frontend:
`Optimization` and `Visualization` components, `SlotList`, `services/api.js`)
together with the assignment-engine contracts of the specification.

JavaScript values are embedded as follows: numbers that are counts become
`Nat`, fractional metrics (`placement_rate`, `utilization`, `score`,
dimensions) become `ℚ`, JS objects used as string-keyed maps become
association lists in insertion order (the order `Object.entries` iterates),
`null`/`undefined` becomes `Option`, and date strings stay `String`.
-/

namespace HarbourPlanner

/-- One per-strategy evaluation record as the backend returns it and the
frontend consumes it (fields read by `Optimization.jsx` and
`Visualization.jsx`): `boats_placed`, `total_boats`, `placement_rate`,
`utilization`, `score`. -/
structure Evaluation where
  boats_placed : Nat
  total_boats : Nat
  placement_rate : ℚ
  utilization : ℚ
  score : ℚ
deriving Repr, DecidableEq

/-- One step of the loop body of `findBestStrategy`
(`Optimization.jsx`): the running state is the pair
(`bestStrategy`, `maxBoatsPlaced`), initially (`null`, `0`); an entry
replaces the state exactly when `evaluation.boats_placed > maxBoatsPlaced`. -/
def findBestStep (acc : Option (String × Evaluation) × Nat)
    (entry : String × Evaluation) : Option (String × Evaluation) × Nat :=
  if acc.2 < entry.2.boats_placed then (some entry, entry.2.boats_placed) else acc

/-- `findBestStrategy(evaluations)` of `Optimization.jsx`: iterate over
`Object.entries(evaluations)` in insertion order, keeping the first entry
whose `boats_placed` strictly exceeds the running maximum (which starts
at `0`); return the kept entry, or `null` when no entry ever exceeded `0`. -/
def findBestStrategy (evaluations : List (String × Evaluation)) :
    Option (String × Evaluation) :=
  (evaluations.foldl findBestStep (none, 0)).1

/-- The fold of `findBestStrategy` never changes the accumulator when every
remaining entry is at or below the running maximum. -/
theorem foldl_findBestStep_of_le (l : List (String × Evaluation))
    (acc : Option (String × Evaluation) × Nat)
    (h : ∀ p ∈ l, p.2.boats_placed ≤ acc.2) :
    l.foldl findBestStep acc = acc := by
  induction l with
  | nil => rfl
  | cons q t ih =>
    have hq : q.2.boats_placed ≤ acc.2 := h q (List.mem_cons_self q t)
    have hstep : findBestStep acc q = acc := by
      unfold findBestStep
      have : ¬ acc.2 < q.2.boats_placed := not_lt.mpr hq
      simp [this]
    rw [List.foldl_cons, hstep]
    exact ih (fun p hp => h p (List.mem_cons_of_mem q hp))

/-- Invariants of the fold of `findBestStrategy`, established by induction on
the entry list with a generalized accumulator: the kept entry (when any)
carries the running maximum, the running maximum only grows and dominates
every processed entry, and the kept entry is either the initial one or an
entry of the list (in which case its `boats_placed` is the final maximum). -/
theorem foldl_findBestStep_spec (l : List (String × Evaluation))
    (acc : Option (String × Evaluation) × Nat)
    (hacc : ∀ q, acc.1 = some q → q.2.boats_placed = acc.2) :
    (∀ q, (l.foldl findBestStep acc).1 = some q →
        q.2.boats_placed = (l.foldl findBestStep acc).2) ∧
    acc.2 ≤ (l.foldl findBestStep acc).2 ∧
    (∀ p ∈ l, p.2.boats_placed ≤ (l.foldl findBestStep acc).2) ∧
    ((l.foldl findBestStep acc).1 = acc.1 ∨
      ∃ q ∈ l, (l.foldl findBestStep acc).1 = some q) := by
  induction l generalizing acc with
  | nil =>
    refine ⟨hacc, le_refl _, ?_, Or.inl rfl⟩
    intro p hp
    exact absurd hp (List.not_mem_nil p)
  | cons q t ih =>
    rw [List.foldl_cons]
    by_cases hlt : acc.2 < q.2.boats_placed
    · have hstep : findBestStep acc q = (some q, q.2.boats_placed) := by
        unfold findBestStep
        simp [hlt]
      rw [hstep]
      have hacc' : ∀ r, (some q, q.2.boats_placed).1 = some r →
          r.2.boats_placed = (some q, q.2.boats_placed).2 := by
        intro r hr
        simp only [Option.some.injEq] at hr
        rw [← hr]
      obtain ⟨h1, h2, h3, h4⟩ := ih (some q, q.2.boats_placed) hacc'
      refine ⟨h1, le_trans (le_of_lt hlt) h2, ?_, ?_⟩
      · intro p hp
        rcases List.mem_cons.mp hp with hpq | hpt
        · rw [hpq]; exact h2
        · exact h3 p hpt
      · rcases h4 with h4 | ⟨r, hr, hrs⟩
        · exact Or.inr ⟨q, List.mem_cons_self q t, h4⟩
        · exact Or.inr ⟨r, List.mem_cons_of_mem q hr, hrs⟩
    · have hstep : findBestStep acc q = acc := by
        unfold findBestStep
        simp [hlt]
      rw [hstep]
      obtain ⟨h1, h2, h3, h4⟩ := ih acc hacc
      refine ⟨h1, h2, ?_, ?_⟩
      · intro p hp
        rcases List.mem_cons.mp hp with hpq | hpt
        · rw [hpq]; exact le_trans (not_lt.mp hlt) h2
        · exact h3 p hpt
      · rcases h4 with h4 | ⟨r, hr, hrs⟩
        · exact Or.inl h4
        · exact Or.inr ⟨r, List.mem_cons_of_mem q hr, hrs⟩

/-- C1 (amended): when at least one evaluation has `boats_placed > 0`, the
strategy `findBestStrategy` selects is an entry of the evaluation set whose
`boats_placed` is the maximum over all evaluations; and when every
evaluation has `boats_placed = 0`, no strategy is selected (the result is
`null`). The choice is deterministic (`findBestStrategy` is a function of
the entry list). -/
theorem findBestStrategy_selects_max (evaluations : List (String × Evaluation))
    (h : ∃ p ∈ evaluations, 0 < p.2.boats_placed) :
    ∃ q ∈ evaluations, findBestStrategy evaluations = some q ∧
      ∀ p ∈ evaluations, p.2.boats_placed ≤ q.2.boats_placed := by
  obtain ⟨p, hp, hppos⟩ := h
  have hacc : ∀ q, (none (α := String × Evaluation), 0).1 = some q →
      q.2.boats_placed = (none (α := String × Evaluation), 0).2 := by
    intro q hq
    exact absurd hq (Option.some_ne_none q).symm
  obtain ⟨h1, _, h3, h4⟩ := foldl_findBestStep_spec evaluations (none, 0) hacc
  rcases h4 with h4 | ⟨q, hq, hqs⟩
  · exfalso
    have hples := h3 p hp
    have hmax0 : (evaluations.foldl findBestStep (none, 0)).2 = 0 →
        p.2.boats_placed = 0 := fun hz => Nat.le_zero.mp (hz ▸ hples)
    by_cases hz : (evaluations.foldl findBestStep (none, 0)).2 = 0
    · have := hmax0 hz
      omega
    · -- the final maximum is positive, so some entry strictly exceeded the
      -- running maximum at its turn and the kept entry cannot be the initial
      -- `none`; derive the contradiction from `h1` applied to `h4`
      have : ∀ q, (evaluations.foldl findBestStep (none, 0)).1 = some q →
          q.2.boats_placed = (evaluations.foldl findBestStep (none, 0)).2 := h1
      rw [h4] at this
      -- `h4` says the kept entry is `none`, yet a positive maximum needs a
      -- kept entry: show the maximum is 0 whenever the kept entry is `none`
      revert hz
      have hnone : (evaluations.foldl findBestStep (none, 0)).1 = none := h4
      -- prove: kept entry none → maximum unchanged (= 0)
      have key : ∀ (l : List (String × Evaluation))
          (acc : Option (String × Evaluation) × Nat),
          (∀ q, acc.1 = some q → q.2.boats_placed = acc.2) →
          (l.foldl findBestStep acc).1 = none → acc.1 = none →
          (l.foldl findBestStep acc).2 = acc.2 := by
        intro l
        induction l with
        | nil => intro acc _ _ _; rfl
        | cons q t ih =>
          intro acc haccq hfold haccnone
          rw [List.foldl_cons] at hfold ⊢
          by_cases hlt : acc.2 < q.2.boats_placed
          · have hstep : findBestStep acc q = (some q, q.2.boats_placed) := by
              unfold findBestStep
              simp [hlt]
            rw [hstep] at hfold
            obtain ⟨_, _, _, h4'⟩ := foldl_findBestStep_spec t
              (some q, q.2.boats_placed) (by
                intro r hr
                simp only [Option.some.injEq] at hr
                rw [← hr])
            rcases h4' with h4' | ⟨r, _, hrs⟩
            · rw [hfold] at h4'
              exact absurd h4'.symm (Option.some_ne_none q)
            · rw [hfold] at hrs
              exact absurd hrs.symm (Option.some_ne_none r)
          · have hstep : findBestStep acc q = acc := by
              unfold findBestStep
              simp [hlt]
            rw [hstep] at hfold ⊢
            exact ih acc haccq hfold haccnone
      intro hz
      exact hz (key evaluations (none, 0) hacc hnone rfl)
  · exact ⟨q, hq, hqs, fun r hr => (h1 q hqs) ▸ h3 r hr⟩

/-- C1 counterexample: a non-empty evaluation set on which `findBestStrategy`
selects no strategy at all — a single strategy whose evaluation has
`boats_placed = 0` (as happens for an empty boats list). This refutes
"some strategy is always selected" for non-empty evaluation sets. -/
theorem findBestStrategy_none_on_nonempty :
    ([("first_fit", (⟨0, 0, 0, 0, 0⟩ : Evaluation))] ≠
        ([] : List (String × Evaluation))) ∧
      findBestStrategy [("first_fit", (⟨0, 0, 0, 0, 0⟩ : Evaluation))] = none := by
  constructor
  · intro h
    exact absurd h (List.cons_ne_nil _ _)
  · rfl

/-- C1 witness: the amended selection rule evaluated on a concrete two-entry
evaluation set in which the second strategy places more boats. -/
theorem findBestStrategy_selects_max_witness :
    ∃ q ∈ [("first_fit", (⟨1, 3, 1/3, 1/5, 4/15⟩ : Evaluation)),
           ("best_fit", (⟨2, 3, 2/3, 2/5, 8/15⟩ : Evaluation))],
      findBestStrategy [("first_fit", (⟨1, 3, 1/3, 1/5, 4/15⟩ : Evaluation)),
           ("best_fit", (⟨2, 3, 2/3, 2/5, 8/15⟩ : Evaluation))] = some q ∧
      ∀ p ∈ [("first_fit", (⟨1, 3, 1/3, 1/5, 4/15⟩ : Evaluation)),
           ("best_fit", (⟨2, 3, 2/3, 2/5, 8/15⟩ : Evaluation))],
        p.2.boats_placed ≤ q.2.boats_placed :=
  findBestStrategy_selects_max _
    ⟨("first_fit", (⟨1, 3, 1/3, 1/5, 4/15⟩ : Evaluation)),
      List.mem_cons_self _ _, Nat.zero_lt_one⟩

/-- C2 (amended): when the first entry of the evaluation list places at least
one boat and no later entry places strictly more, `findBestStrategy` keeps
the first entry — in particular, on a tie in `boats_placed` the earlier
entry in iteration (insertion) order wins regardless of `score` or
`utilization`, which the selection never consults. -/
theorem findBestStrategy_tie_keeps_first (name : String) (e : Evaluation)
    (rest : List (String × Evaluation)) (hpos : 0 < e.boats_placed)
    (hrest : ∀ p ∈ rest, p.2.boats_placed ≤ e.boats_placed) :
    findBestStrategy ((name, e) :: rest) = some (name, e) := by
  unfold findBestStrategy
  rw [List.foldl_cons]
  have hstep : findBestStep (none, 0) (name, e) = (some (name, e), e.boats_placed) := by
    unfold findBestStep
    simp [hpos]
  rw [hstep, foldl_findBestStep_of_le rest _ hrest]

/-- C2 counterexample: two strategies tie on `boats_placed` while the second
has the strictly higher `score` and `utilization`; `findBestStrategy`
selects the first one, so the claimed score tie-break does not exist in the
code. -/
theorem findBestStrategy_ignores_score :
    findBestStrategy
        [("first_fit", (⟨2, 3, 2/3, 1/10, 1/2⟩ : Evaluation)),
         ("best_fit", (⟨2, 3, 2/3, 9/10, 3/4⟩ : Evaluation))] =
      some ("first_fit", (⟨2, 3, 2/3, 1/10, 1/2⟩ : Evaluation)) ∧
    (⟨2, 3, 2/3, 1/10, 1/2⟩ : Evaluation).boats_placed =
      (⟨2, 3, 2/3, 9/10, 3/4⟩ : Evaluation).boats_placed ∧
    (⟨2, 3, 2/3, 1/10, 1/2⟩ : Evaluation).score <
      (⟨2, 3, 2/3, 9/10, 3/4⟩ : Evaluation).score ∧
    (⟨2, 3, 2/3, 1/10, 1/2⟩ : Evaluation).utilization <
      (⟨2, 3, 2/3, 9/10, 3/4⟩ : Evaluation).utilization := by
  refine ⟨rfl, rfl, ?_, ?_⟩ <;> norm_num

/-- C2 witness: the amended tie rule applied to the concrete tied pair of the
counterexample. -/
theorem findBestStrategy_tie_keeps_first_witness :
    findBestStrategy
        [("first_fit", (⟨2, 3, 2/3, 1/10, 1/2⟩ : Evaluation)),
         ("best_fit", (⟨2, 3, 2/3, 9/10, 3/4⟩ : Evaluation))] =
      some ("first_fit", (⟨2, 3, 2/3, 1/10, 1/2⟩ : Evaluation)) :=
  findBestStrategy_tie_keeps_first "first_fit" ⟨2, 3, 2/3, 1/10, 1/2⟩
    [("best_fit", (⟨2, 3, 2/3, 9/10, 3/4⟩ : Evaluation))]
    (by decide)
    (by
      intro p hp
      rcases List.mem_cons.mp hp with h | h
      · rw [h]
      · exact absurd h (List.not_mem_nil p))

/-- When every evaluation has `boats_placed = 0`, the loop of
`findBestStrategy` never fires and the result is `null`. -/
theorem findBestStrategy_eq_none (evaluations : List (String × Evaluation))
    (h : ∀ p ∈ evaluations, p.2.boats_placed = 0) :
    findBestStrategy evaluations = none := by
  unfold findBestStrategy
  rw [foldl_findBestStep_of_le evaluations (none, 0)
    (fun p hp => Nat.le_zero.mpr (h p hp))]

/-- One placement of the run result (`response.data.strategies[name]` entry),
as `handleRunOptimization` copies it into `strategy_results`: `boat_id`,
`slot_id`, the interval endpoints (ISO date strings in the frontend) and the
`strategy_name` stamped on during the copy. -/
structure Placement where
  boat_id : Nat
  slot_id : Nat
  start_time : String
  end_time : String
  strategy_name : String
deriving Repr, DecidableEq

/-- The narrative object optionally present on the run response
(`response.data.gpt_analysis`); the only field `handleRunOptimization` reads
from it is `recommendations`. -/
structure GptAnalysisIn where
  recommendations : List String
deriving Repr, DecidableEq

/-- The run response consumed by `handleRunOptimization`
(`response.data`): per-strategy placement lists, per-strategy evaluations
(both in `Object.entries` insertion order) and the optional narrative. -/
structure ResponseData where
  strategies : List (String × List Placement)
  evaluations : List (String × Evaluation)
  gpt_analysis : Option GptAnalysisIn
deriving Repr, DecidableEq

/-- The `gpt_analysis` object `handleRunOptimization` builds on the enhanced
result: the spread of the response narrative overridden with
`best_strategy`, `auto_optimization`, `boats_placed`, `total_boats`,
`placement_rate` and the prepended recommendation. -/
structure GptAnalysisOut where
  best_strategy : String
  auto_optimization : Bool
  boats_placed : Nat
  total_boats : Nat
  placement_rate : ℚ
  recommendations : List String
deriving Repr, DecidableEq

/-- The `enhancedResult` object `handleRunOptimization` assembles:
the response spread (`strategies`, `evaluations`), the automatically
selected best strategy, the converted `strategy_results` and the rebuilt
`gpt_analysis`. -/
structure EnhancedResult where
  strategies : List (String × List Placement)
  evaluations : List (String × Evaluation)
  auto_selected_best : Option (String × Evaluation)
  strategy_results : List (String × List Placement)
  gpt_analysis : GptAnalysisOut
deriving Repr, DecidableEq

/-- The first recommendation `handleRunOptimization` prepends:
`Automatisk optimering valde strategin "<name>" som placerar flest båtar
(<boats_placed> av <total_boats>).` — a `null` best strategy renders as
JavaScript's `undefined` in the template literal, with the counts falling
back to `0` through `|| 0`. -/
def recommendationText (best : Option (String × Evaluation)) : String :=
  "Automatisk optimering valde strategin \"" ++
    (match best with
     | some q => q.1
     | none => "undefined") ++
    "\" som placerar flest båtar (" ++
    toString (match best with
      | some q => q.2.boats_placed
      | none => 0) ++ " av " ++
    toString (match best with
      | some q => q.2.total_boats
      | none => 0) ++ ")."

/-- The enhancement step of `handleRunOptimization` (`Optimization.jsx`):
run `findBestStrategy` over the evaluations, copy `strategies` and
`evaluations` through, convert `strategies` into `strategy_results`
(stamping each placement with its strategy name), and rebuild
`gpt_analysis`, every field of which falls back to a default
(`'Ingen strategi kunde utvärderas'`, `0`, `[]`) through `?.` / `||` when
the best strategy or the response narrative is absent. -/
def enhanceResult (data : ResponseData) : EnhancedResult :=
  let bestStrategy := findBestStrategy data.evaluations
  { strategies := data.strategies
    evaluations := data.evaluations
    auto_selected_best := bestStrategy
    strategy_results := data.strategies.map (fun entry =>
      (entry.1, entry.2.map (fun p =>
        { boat_id := p.boat_id
          slot_id := p.slot_id
          start_time := p.start_time
          end_time := p.end_time
          strategy_name := entry.1 })))
    gpt_analysis :=
      { best_strategy := match bestStrategy with
          | some q => q.1
          | none => "Ingen strategi kunde utvärderas"
        auto_optimization := true
        boats_placed := match bestStrategy with
          | some q => q.2.boats_placed
          | none => 0
        total_boats := match bestStrategy with
          | some q => q.2.total_boats
          | none => 0
        placement_rate := match bestStrategy with
          | some q => q.2.placement_rate
          | none => 0
        recommendations :=
          recommendationText bestStrategy ::
            (match data.gpt_analysis with
             | some g => g.recommendations
             | none => []) } }

/-- C4: the narrative is additive, never required — for any run response,
the result `handleRunOptimization` produces has the same `strategies`,
`evaluations`, `strategy_results` and automatically selected best strategy
whether the response's `gpt_analysis` is present, empty or absent; the
enhancement is a total function, so processing completes either way. -/
theorem enhanceResult_gpt_analysis_optional
    (strategies : List (String × List Placement))
    (evaluations : List (String × Evaluation)) (g : Option GptAnalysisIn) :
    (enhanceResult ⟨strategies, evaluations, g⟩).strategies =
        (enhanceResult ⟨strategies, evaluations, none⟩).strategies ∧
      (enhanceResult ⟨strategies, evaluations, g⟩).evaluations =
        (enhanceResult ⟨strategies, evaluations, none⟩).evaluations ∧
      (enhanceResult ⟨strategies, evaluations, g⟩).strategy_results =
        (enhanceResult ⟨strategies, evaluations, none⟩).strategy_results ∧
      (enhanceResult ⟨strategies, evaluations, g⟩).auto_selected_best =
        (enhanceResult ⟨strategies, evaluations, none⟩).auto_selected_best :=
  ⟨rfl, rfl, rfl, rfl⟩

/-- C5 (amended): when every evaluation of the run reports
`boats_placed = 0` — as is forced when the input boats list is empty — no
best strategy is selected and the `placement_rate`, `boats_placed` and
`total_boats` that `handleRunOptimization` reports on `gpt_analysis` all
fall back to `0` through `?.` / `|| 0`; no division is performed, so no
division-by-zero error can occur. -/
theorem enhanceResult_empty_boats (data : ResponseData)
    (h : ∀ p ∈ data.evaluations, p.2.boats_placed = 0) :
    (enhanceResult data).auto_selected_best = none ∧
      (enhanceResult data).gpt_analysis.placement_rate = 0 ∧
      (enhanceResult data).gpt_analysis.boats_placed = 0 ∧
      (enhanceResult data).gpt_analysis.total_boats = 0 := by
  have hnone : findBestStrategy data.evaluations = none :=
    findBestStrategy_eq_none data.evaluations h
  refine ⟨?_, ?_, ?_, ?_⟩ <;> simp [enhanceResult, hnone]

/-- C5 counterexample: a run over an empty boats list whose evaluation even
reports the spec's conventional `placement_rate = 1.0`; the frontend still
reports `placement_rate = 0`, not `1.0`, because no best strategy exists
and the `|| 0` fallback fires. -/
theorem enhanceResult_empty_boats_rate_not_one :
    (enhanceResult
        ⟨[("first_fit", [])],
         [("first_fit", (⟨0, 0, 1, 0, 7/10⟩ : Evaluation))],
         none⟩).gpt_analysis.placement_rate = 0 ∧
      (enhanceResult
          ⟨[("first_fit", [])],
           [("first_fit", (⟨0, 0, 1, 0, 7/10⟩ : Evaluation))],
           none⟩).gpt_analysis.placement_rate ≠ 1 := by
  refine ⟨rfl, ?_⟩
  decide

/-- C5 witness: the amended fallback behaviour evaluated on the concrete
empty-boats response of the counterexample. -/
theorem enhanceResult_empty_boats_witness :
    (enhanceResult
        ⟨[("first_fit", [])],
         [("first_fit", (⟨0, 0, 1, 0, 7/10⟩ : Evaluation))],
         none⟩).auto_selected_best = none ∧
      (enhanceResult
          ⟨[("first_fit", [])],
           [("first_fit", (⟨0, 0, 1, 0, 7/10⟩ : Evaluation))],
           none⟩).gpt_analysis.placement_rate = 0 ∧
      (enhanceResult
          ⟨[("first_fit", [])],
           [("first_fit", (⟨0, 0, 1, 0, 7/10⟩ : Evaluation))],
           none⟩).gpt_analysis.boats_placed = 0 ∧
      (enhanceResult
          ⟨[("first_fit", [])],
           [("first_fit", (⟨0, 0, 1, 0, 7/10⟩ : Evaluation))],
           none⟩).gpt_analysis.total_boats = 0 :=
  enhanceResult_empty_boats _ (by
    intro p hp
    rcases List.mem_cons.mp hp with h | h
    · rw [h]
    · exact absurd h (List.not_mem_nil p))

/-- A value carried as an axios query parameter by `services/api.js`:
the strategy-name list or the background flag. -/
inductive ParamValue where
  | strList : List String → ParamValue
  | boolVal : Bool → ParamValue
deriving Repr, DecidableEq

/-- An HTTP request as `services/api.js` builds one with axios: method, url,
optional body, and the query parameters in the order the `params` object
lists them. -/
structure Request where
  method : String
  url : String
  body : Option String
  params : List (String × ParamValue)
deriving Repr, DecidableEq

/-- `api.runOptimization(strategy_names, run_in_background)` of
`services/api.js`: `axios.post('/api/optimize', null,
{ params: { strategy_names, run_in_background } })` — a POST with a null
body whose only query parameters are `strategy_names` and
`run_in_background`. -/
def runOptimization (strategy_names : List String)
    (run_in_background : Bool) : Request :=
  { method := "POST"
    url := "/api/optimize"
    body := none
    params := [("strategy_names", ParamValue.strList strategy_names),
               ("run_in_background", ParamValue.boolVal run_in_background)] }

/-- The one-argument call `api.runOptimization(strategy_names)`: the JS
default parameter `run_in_background = false` supplies the flag. -/
def runOptimizationDefault (strategy_names : List String) : Request :=
  runOptimization strategy_names false

/-- C6 (amended): a run request built by `runOptimization` carries exactly
the query parameters `strategy_names` and `run_in_background` (in that
order) and a null body — no `boats`, `slots` or `config` field travels with
the request — and a call that gives no flag defaults to synchronous
(`run_in_background = false`). -/
theorem runOptimization_request_shape (strategy_names : List String)
    (run_in_background : Bool) :
    (runOptimization strategy_names run_in_background).params.map Prod.fst =
        ["strategy_names", "run_in_background"] ∧
      (runOptimization strategy_names run_in_background).body = none ∧
      runOptimizationDefault strategy_names =
        runOptimization strategy_names false :=
  ⟨rfl, rfl, rfl⟩

/-- C6 counterexample: the concrete request for a single-strategy run names
no `boats`, `slots` or `config` parameter and has no body, refuting the
claim that every run request carries those fields. -/
theorem runOptimization_request_no_snapshot :
    "boats" ∉ (runOptimizationDefault ["first_fit"]).params.map Prod.fst ∧
      "slots" ∉ (runOptimizationDefault ["first_fit"]).params.map Prod.fst ∧
      "config" ∉ (runOptimizationDefault ["first_fit"]).params.map Prod.fst ∧
      (runOptimizationDefault ["first_fit"]).body = none := by
  refine ⟨?_, ?_, ?_, rfl⟩ <;> decide

/-- One slot record of the sample slot data rendered by `SlotList`
(`slotsData`): identifier, slot code, owning dock, physical width/length,
maximum boat width/length, depth, facilities, administrative status,
occupant, booking horizon, maintenance history and prices. -/
structure SlotListItem where
  id : Nat
  slotId : String
  dock : String
  width : ℚ
  length : ℚ
  maxBoatWidth : ℚ
  maxBoatLength : ℚ
  depth : ℚ
  facilities : List String
  status : String
  occupiedBy : String
  bookedUntil : String
  maintenanceHistory : List (String × String)
  pricePerDay : ℚ
  pricePerMonth : ℚ
deriving Repr, DecidableEq

/-- The `slotsData` array of `SlotList` (sample data for the slot pages),
entry for entry; maintenance history entries are (date, description)
pairs. -/
def slotsData : List SlotListItem :=
  [{ id := 1, slotId := "A01", dock := "A", width := 3.5, length := 12,
     maxBoatWidth := 3.2, maxBoatLength := 11, depth := 2.5,
     facilities := ["El", "Vatten", "Wifi"], status := "occupied",
     occupiedBy := "Sjöbris (Karl Nilsson)", bookedUntil := "2025-09-30",
     maintenanceHistory := [("2025-03-15", "Byte av elkabel"),
       ("2024-11-10", "Inspektion av fästen")],
     pricePerDay := 180, pricePerMonth := 3500 },
   { id := 2, slotId := "A02", dock := "A", width := 3.8, length := 14,
     maxBoatWidth := 3.5, maxBoatLength := 13, depth := 2.5,
     facilities := ["El", "Vatten", "Wifi"], status := "available",
     occupiedBy := "", bookedUntil := "",
     maintenanceHistory := [("2025-04-10", "Byte av pollare")],
     pricePerDay := 210, pricePerMonth := 4100 },
   { id := 3, slotId := "A03", dock := "A", width := 4.2, length := 16,
     maxBoatWidth := 3.9, maxBoatLength := 15, depth := 2.8,
     facilities := ["El", "Vatten", "Wifi", "Extra förtöjning"],
     status := "reserved", occupiedBy := "Havsbris (Anna Ström)",
     bookedUntil := "2025-08-15", maintenanceHistory := [],
     pricePerDay := 250, pricePerMonth := 4800 },
   { id := 4, slotId := "B01", dock := "B", width := 3.2, length := 10,
     maxBoatWidth := 2.9, maxBoatLength := 9, depth := 2.2,
     facilities := ["El", "Vatten"], status := "maintenance",
     occupiedBy := "", bookedUntil := "",
     maintenanceHistory := [("2025-05-10", "Reparation av brygga")],
     pricePerDay := 160, pricePerMonth := 3100 },
   { id := 5, slotId := "B02", dock := "B", width := 3.5, length := 12,
     maxBoatWidth := 3.2, maxBoatLength := 11, depth := 2.5,
     facilities := ["El", "Vatten", "Wifi"], status := "occupied",
     occupiedBy := "Skärgårdsdröm (Mikael Berg)", bookedUntil := "2025-10-15",
     maintenanceHistory := [], pricePerDay := 180, pricePerMonth := 3500 },
   { id := 6, slotId := "C01", dock := "C", width := 5.0, length := 20,
     maxBoatWidth := 4.7, maxBoatLength := 19, depth := 3.5,
     facilities := ["El", "Vatten", "Wifi", "Extra förtöjning", "Lås"],
     status := "occupied", occupiedBy := "Vindseglare (Sofia Karlsson)",
     bookedUntil := "2025-09-01",
     maintenanceHistory := [("2025-02-20", "Förstärkning av brygga"),
       ("2024-12-05", "Byte av eluttag")],
     pricePerDay := 350, pricePerMonth := 6500 },
   { id := 7, slotId := "C02", dock := "C", width := 4.8, length := 18,
     maxBoatWidth := 4.5, maxBoatLength := 17, depth := 3.2,
     facilities := ["El", "Vatten", "Wifi", "Extra förtöjning"],
     status := "available", occupiedBy := "", bookedUntil := "",
     maintenanceHistory := [], pricePerDay := 320, pricePerMonth := 6000 },
   { id := 8, slotId := "D01", dock := "D", width := 6.0, length := 25,
     maxBoatWidth := 5.7, maxBoatLength := 24, depth := 4.0,
     facilities := ["El", "Vatten", "Wifi", "Extra förtöjning", "Lås",
       "Bevakning"],
     status := "occupied", occupiedBy := "Havskryssaren (Johan Ekman)",
     bookedUntil := "2025-10-30",
     maintenanceHistory := [("2025-01-15", "Installation av nytt låssystem")],
     pricePerDay := 450, pricePerMonth := 8500 },
   { id := 9, slotId := "D02", dock := "D", width := 5.5, length := 22,
     maxBoatWidth := 5.2, maxBoatLength := 21, depth := 3.8,
     facilities := ["El", "Vatten", "Wifi", "Extra förtöjning", "Lås"],
     status := "available", occupiedBy := "", bookedUntil := "",
     maintenanceHistory := [], pricePerDay := 400, pricePerMonth := 7800 }]

/-- C7: every slot of `slotsData` satisfies the Slot invariant — its maximum
boat width is at most its physical width and its maximum boat length is at
most its physical length. -/
theorem slotsData_max_boat_le_physical :
    ∀ s ∈ slotsData, s.maxBoatWidth ≤ s.width ∧ s.maxBoatLength ≤ s.length := by
  intro s hs
  simp only [slotsData, List.mem_cons, List.not_mem_nil, or_false] at hs
  rcases hs with h | h | h | h | h | h | h | h | h <;> subst h <;>
    exact ⟨by norm_num, by norm_num⟩

/-- C7 witness: the invariant instantiated at the first slot of
`slotsData` (slot A01: max boat 3.2 × 11 within physical 3.5 × 12). -/
theorem slotsData_max_boat_le_physical_witness :
    (⟨1, "A01", "A", 3.5, 12, 3.2, 11, 2.5, ["El", "Vatten", "Wifi"],
        "occupied", "Sjöbris (Karl Nilsson)", "2025-09-30",
        [("2025-03-15", "Byte av elkabel"),
         ("2024-11-10", "Inspektion av fästen")],
        180, 3500⟩ : SlotListItem).maxBoatWidth ≤
        (⟨1, "A01", "A", 3.5, 12, 3.2, 11, 2.5, ["El", "Vatten", "Wifi"],
          "occupied", "Sjöbris (Karl Nilsson)", "2025-09-30",
          [("2025-03-15", "Byte av elkabel"),
           ("2024-11-10", "Inspektion av fästen")],
          180, 3500⟩ : SlotListItem).width ∧
      (⟨1, "A01", "A", 3.5, 12, 3.2, 11, 2.5, ["El", "Vatten", "Wifi"],
          "occupied", "Sjöbris (Karl Nilsson)", "2025-09-30",
          [("2025-03-15", "Byte av elkabel"),
           ("2024-11-10", "Inspektion av fästen")],
          180, 3500⟩ : SlotListItem).maxBoatLength ≤
        (⟨1, "A01", "A", 3.5, 12, 3.2, 11, 2.5, ["El", "Vatten", "Wifi"],
          "occupied", "Sjöbris (Karl Nilsson)", "2025-09-30",
          [("2025-03-15", "Byte av elkabel"),
           ("2024-11-10", "Inspektion av fästen")],
          180, 3500⟩ : SlotListItem).length :=
  slotsData_max_boat_le_physical _ (List.mem_cons_self _ _)

/-- A slot object as `Visualization.jsx` receives it from the backend; the
fields its map logic reads are the identifier, the `slot_type`
(`'guest' | 'flex' | 'permanent' | 'guest_drop_in' | …`) and the
administrative `status`. -/
structure VisSlot where
  id : Nat
  slot_type : String
  status : String
deriving Repr, DecidableEq

/-- `getBoatInfoForSlot(slotId)` of `Visualization.jsx`: `null` unless the
optimization view is on, a strategy is selected and that strategy has
placements; otherwise the FIRST placement of the selected strategy whose
`slot_id` matches (`Array.prototype.find`). -/
def getBoatInfoForSlot (showOptimization : Bool)
    (selectedStrategy : Option String)
    (strategyPlacements : List (String × List Placement))
    (slotId : Nat) : Option Placement :=
  if showOptimization then
    match selectedStrategy with
    | some strategy =>
      match strategyPlacements.lookup strategy with
      | some placements => placements.find? (fun p => p.slot_id == slotId)
      | none => none
    | none => none
  else none

/-- The colour `getSlotColor` falls back to when no placement marks the slot:
permanent slots are always red, otherwise the colour follows the
administrative status. -/
def slotBaseColor (slot : VisSlot) : String :=
  if slot.slot_type = "permanent" then "fill-red-600 stroke-red-800"
  else if slot.status = "available" then "fill-green-500 stroke-green-700"
  else if slot.status = "occupied" then "fill-red-500 stroke-red-700"
  else if slot.status = "reserved" then "fill-yellow-500 stroke-yellow-700"
  else if slot.status = "maintenance" then "fill-gray-500 stroke-gray-700"
  else "fill-blue-300 stroke-blue-500"

/-- `getSlotColor(slot)` of `Visualization.jsx`: in the optimization view
with a selected strategy whose placements contain one matching the slot
(`Array.prototype.find`), the slot is painted blue as hosting a boat;
otherwise the base colouring applies. -/
def getSlotColor (showOptimization : Bool) (selectedStrategy : Option String)
    (strategyPlacements : List (String × List Placement))
    (slot : VisSlot) : String :=
  if showOptimization then
    match selectedStrategy with
    | some strategy =>
      match strategyPlacements.lookup strategy with
      | some placements =>
        match placements.find? (fun p => p.slot_id == slot.id) with
        | some _ => "fill-blue-500 stroke-blue-700"
        | none => slotBaseColor slot
      | none => slotBaseColor slot
    | none => slotBaseColor slot
  else slotBaseColor slot

/-- `List.find?` over a list whose prefix contains no match returns the first
match after the prefix. -/
theorem find?_prefix_no_match {α : Type} (pred : α → Bool) (pre : List α)
    (x : α) (post : List α) (hpre : ∀ q ∈ pre, pred q = false)
    (hx : pred x = true) :
    (pre ++ x :: post).find? pred = some x := by
  induction pre with
  | nil =>
    simp only [List.nil_append, List.find?_cons, hx]
  | cons a t ih =>
    have ha : pred a = false := hpre a (List.mem_cons_self a t)
    simp only [List.cons_append, List.find?_cons, ha]
    exact ih (fun q hq => hpre q (List.mem_cons_of_mem a hq))

/-- C8: for a selected strategy and a slot, the map derives at most one
displayed boat — the FIRST placement of the strategy's list whose `slot_id`
matches — so any distinct later placement for the same slot is never the
one shown in the tooltip or on the map. -/
theorem getBoatInfoForSlot_first_only
    (strategyPlacements : List (String × List Placement)) (strategy : String)
    (pre post : List Placement) (p : Placement) (slotId : Nat)
    (hlk : strategyPlacements.lookup strategy = some (pre ++ p :: post))
    (hp : p.slot_id = slotId) (hpre : ∀ q ∈ pre, q.slot_id ≠ slotId) :
    getBoatInfoForSlot true (some strategy) strategyPlacements slotId = some p ∧
      ∀ q ∈ post, q ≠ p →
        getBoatInfoForSlot true (some strategy) strategyPlacements slotId ≠
          some q := by
  have hfind : (pre ++ p :: post).find? (fun q => q.slot_id == slotId) = some p := by
    refine find?_prefix_no_match _ pre p post ?_ ?_
    · intro q hq
      exact beq_eq_false_iff_ne.mpr (hpre q hq)
    · exact beq_iff_eq.mpr hp
  have hmain : getBoatInfoForSlot true (some strategy) strategyPlacements slotId =
      some p := by
    simp only [getBoatInfoForSlot, if_true, hlk, hfind]
  refine ⟨hmain, ?_⟩
  intro q _ hqp hsome
  rw [hmain] at hsome
  exact hqp (Option.some.injEq _ _ ▸ hsome).symm

/-- C8 witness: a strategy assigning two distinct boats to slot 7 over
disjoint intervals; the map shows the first placement and never the
second. -/
theorem getBoatInfoForSlot_first_only_witness :
    getBoatInfoForSlot true (some "first_fit")
        [("first_fit",
          [⟨1, 7, "2025-06-01", "2025-06-05", "first_fit"⟩,
           ⟨2, 7, "2025-06-06", "2025-06-10", "first_fit"⟩])] 7 =
      some ⟨1, 7, "2025-06-01", "2025-06-05", "first_fit"⟩ ∧
    ∀ q ∈ [(⟨2, 7, "2025-06-06", "2025-06-10", "first_fit"⟩ : Placement)],
      q ≠ ⟨1, 7, "2025-06-01", "2025-06-05", "first_fit"⟩ →
        getBoatInfoForSlot true (some "first_fit")
            [("first_fit",
              [⟨1, 7, "2025-06-01", "2025-06-05", "first_fit"⟩,
               ⟨2, 7, "2025-06-06", "2025-06-10", "first_fit"⟩])] 7 ≠
          some q :=
  getBoatInfoForSlot_first_only
    [("first_fit",
      [⟨1, 7, "2025-06-01", "2025-06-05", "first_fit"⟩,
       ⟨2, 7, "2025-06-06", "2025-06-10", "first_fit"⟩])]
    "first_fit" []
    [⟨2, 7, "2025-06-06", "2025-06-10", "first_fit"⟩]
    ⟨1, 7, "2025-06-01", "2025-06-05", "first_fit"⟩ 7
    (by decide)
    rfl
    (by intro q hq; exact absurd hq (List.not_mem_nil q))

/-- `handleSlotClick(slot)` of `Visualization.jsx`: a click on a permanent
slot returns early and leaves the selected-slot state untouched; any other
click selects the clicked slot. -/
def handleSlotClick (selectedSlot : Option VisSlot) (slot : VisSlot) :
    Option VisSlot :=
  if slot.slot_type = "permanent" then selectedSlot else some slot

/-- An event that can change the `selectedSlot` state of `Visualization.jsx`:
a click on a slot rectangle (`handleSlotClick`) or the detail panel's close
button (`setSelectedSlot(null)`). -/
inductive VisEvent where
  | clickSlot : VisSlot → VisEvent
  | closePanel : VisEvent
deriving Repr, DecidableEq

/-- One step of the `selectedSlot` state under a UI event. -/
def stepSelectedSlot (selectedSlot : Option VisSlot) : VisEvent → Option VisSlot
  | VisEvent.clickSlot slot => handleSlotClick selectedSlot slot
  | VisEvent.closePanel => none

/-- The `selectedSlot` state after a sequence of UI events, starting from the
initial `null`. -/
def selectedSlotAfter (events : List VisEvent) : Option VisSlot :=
  events.foldl stepSelectedSlot none

/-- The update of `selectedSlot` preserves "never a permanent slot". -/
theorem foldl_stepSelectedSlot_not_permanent (events : List VisEvent)
    (init : Option VisSlot)
    (hinit : ∀ s, init = some s → s.slot_type ≠ "permanent") :
    ∀ s, events.foldl stepSelectedSlot init = some s →
      s.slot_type ≠ "permanent" := by
  induction events generalizing init with
  | nil => exact hinit
  | cons e t ih =>
    rw [List.foldl_cons]
    refine ih (stepSelectedSlot init e) ?_
    intro s hs
    cases e with
    | clickSlot slot =>
      simp only [stepSelectedSlot, handleSlotClick] at hs
      by_cases hperm : slot.slot_type = "permanent"
      · rw [if_pos hperm] at hs
        exact hinit s hs
      · rw [if_neg hperm] at hs
        rw [← (Option.some.injEq _ _ ▸ hs : slot = s)]
        exact hperm
    | closePanel =>
      simp only [stepSelectedSlot] at hs
      exact absurd hs (Option.some_ne_none s).symm.elim

/-- C9: clicking a permanent slot leaves the selected-slot state unchanged,
clicking a slot of any other type selects exactly that slot, and along any
sequence of clicks and panel closes (from the initial empty selection) the
selected slot is never permanent — so the detail panel with status-change
actions can never be opened for a permanent slot. -/
theorem handleSlotClick_permanent_never_selected :
    (∀ (selectedSlot : Option VisSlot) (slot : VisSlot),
        slot.slot_type = "permanent" →
          handleSlotClick selectedSlot slot = selectedSlot) ∧
      (∀ (selectedSlot : Option VisSlot) (slot : VisSlot),
        slot.slot_type ≠ "permanent" →
          handleSlotClick selectedSlot slot = some slot) ∧
      (∀ (events : List VisEvent) (s : VisSlot),
        selectedSlotAfter events = some s → s.slot_type ≠ "permanent") := by
  refine ⟨?_, ?_, ?_⟩
  · intro sel slot h
    unfold handleSlotClick
    rw [if_pos h]
  · intro sel slot h
    unfold handleSlotClick
    rw [if_neg h]
  · intro events s
    exact foldl_stepSelectedSlot_not_permanent events none
      (fun r hr => absurd hr (Option.some_ne_none r).symm.elim) s

/-- Insert one evaluation entry into a list already sorted by decreasing
`boats_placed`, placing it before the first entry it is not outranked by.
Together with `sortEvaluations` this is the stable descending sort that
`Array.prototype.sort` with the comparator
`(a, b) => b.boats_placed - a.boats_placed` performs (ECMAScript sorts are
stable): an entry moves before another exactly when it places strictly more
boats. -/
def insertEval (p : String × Evaluation) :
    List (String × Evaluation) → List (String × Evaluation)
  | [] => [p]
  | q :: rest =>
    if q.2.boats_placed ≤ p.2.boats_placed then p :: q :: rest
    else q :: insertEval p rest

/-- The sort applied to `Object.entries(optimizationResult.evaluations)` in
both comparison views (the result grid of `Optimization.jsx` and the
strategy tabs of `Visualization.jsx`):
`.sort(([,a],[,b]) => b.boats_placed - a.boats_placed)`. -/
def sortEvaluations : List (String × Evaluation) → List (String × Evaluation)
  | [] => []
  | p :: rest => insertEval p (sortEvaluations rest)

/-- `insertEval` inserts its entry somewhere in the list: the result is a
permutation of the entry consed on. -/
theorem insertEval_perm (p : String × Evaluation)
    (l : List (String × Evaluation)) : (insertEval p l).Perm (p :: l) := by
  induction l with
  | nil => exact List.Perm.refl _
  | cons q rest ih =>
    by_cases h : q.2.boats_placed ≤ p.2.boats_placed
    · simp only [insertEval, if_pos h]
      exact List.Perm.refl _
    · simp only [insertEval, if_neg h]
      exact (ih.cons q).trans (List.Perm.swap p q rest)

/-- `insertEval` preserves sortedness by decreasing `boats_placed`. -/
theorem insertEval_pairwise (p : String × Evaluation)
    (l : List (String × Evaluation))
    (h : l.Pairwise (fun a b => b.2.boats_placed ≤ a.2.boats_placed)) :
    (insertEval p l).Pairwise
      (fun a b => b.2.boats_placed ≤ a.2.boats_placed) := by
  induction l with
  | nil => exact List.pairwise_singleton _ _
  | cons q rest ih =>
    obtain ⟨hq, hrest⟩ := List.pairwise_cons.mp h
    by_cases hle : q.2.boats_placed ≤ p.2.boats_placed
    · simp only [insertEval, if_pos hle]
      refine List.pairwise_cons.mpr ⟨?_, h⟩
      intro b hb
      rcases List.mem_cons.mp hb with hbq | hbr
      · rw [hbq]; exact hle
      · exact le_trans (hq b hbr) hle
    · simp only [insertEval, if_neg hle]
      refine List.pairwise_cons.mpr ⟨?_, ih hrest⟩
      intro b hb
      have hb' : b ∈ p :: rest := (insertEval_perm p rest).mem_iff.mp hb
      rcases List.mem_cons.mp hb' with hbp | hbr
      · rw [hbp]; exact le_of_lt (not_le.mp hle)
      · exact hq b hbr

/-- `sortEvaluations` permutes its input. -/
theorem sortEvaluations_perm (l : List (String × Evaluation)) :
    (sortEvaluations l).Perm l := by
  induction l with
  | nil => exact List.Perm.refl _
  | cons p rest ih =>
    exact (insertEval_perm p (sortEvaluations rest)).trans (ih.cons p)

/-- C10: in both strategy-comparison views the rendered evaluation entries
are the input entries in non-increasing order of `boats_placed` (the sorted
list is a permutation of the evaluation set, pairwise non-increasing), and
the first entry of that sorted order — the one the `BÄST` badge is attached
to (`index === 0`) — places at least as many boats as every evaluation in
the set. -/
theorem sortEvaluations_nonincreasing (l : List (String × Evaluation)) :
    (sortEvaluations l).Pairwise
        (fun a b => b.2.boats_placed ≤ a.2.boats_placed) ∧
      (sortEvaluations l).Perm l ∧
      ∀ p rest, sortEvaluations l = p :: rest →
        ∀ q ∈ l, q.2.boats_placed ≤ p.2.boats_placed := by
  have hpair : (sortEvaluations l).Pairwise
      (fun a b => b.2.boats_placed ≤ a.2.boats_placed) := by
    induction l with
    | nil => exact List.Pairwise.nil
    | cons p rest ih => exact insertEval_pairwise p (sortEvaluations rest) ih
  refine ⟨hpair, sortEvaluations_perm l, ?_⟩
  intro p rest hcons q hq
  have hq' : q ∈ p :: rest := hcons ▸ (sortEvaluations_perm l).symm.mem_iff.mp hq
  rcases List.mem_cons.mp hq' with hqp | hqr
  · rw [hqp]
  · have := List.pairwise_cons.mp (hcons ▸ hpair)
    exact this.1 q hqr

/-- C10 witness: the sort evaluated on a concrete three-entry evaluation set
given in ascending order; the sorted order is non-increasing, permutes the
input, and its first entry carries the maximum `boats_placed`. -/
theorem sortEvaluations_nonincreasing_witness :
    ∀ q ∈ [("first_fit", (⟨1, 4, 1/4, 1/10, 1/5⟩ : Evaluation)),
           ("best_fit", (⟨3, 4, 3/4, 3/10, 3/5⟩ : Evaluation)),
           ("worst_fit", (⟨2, 4, 1/2, 1/5, 2/5⟩ : Evaluation))],
      q.2.boats_placed ≤
        (("best_fit", (⟨3, 4, 3/4, 3/10, 3/5⟩ : Evaluation))).2.boats_placed :=
  (sortEvaluations_nonincreasing
      [("first_fit", (⟨1, 4, 1/4, 1/10, 1/5⟩ : Evaluation)),
       ("best_fit", (⟨3, 4, 3/4, 3/10, 3/5⟩ : Evaluation)),
       ("worst_fit", (⟨2, 4, 1/2, 1/5, 2/5⟩ : Evaluation))]).2.2
    ("best_fit", (⟨3, 4, 3/4, 3/10, 3/5⟩ : Evaluation))
    [("worst_fit", (⟨2, 4, 1/2, 1/5, 2/5⟩ : Evaluation)),
     ("first_fit", (⟨1, 4, 1/4, 1/10, 1/5⟩ : Evaluation))]
    rfl

/-- Modelled from the spec: the backend strategy/feasibility code is not
among the repository's files (only its frontend callers are), so the Boat of
§3 is modelled from the spec's words — identifier, length, width, requested
interval [arrival, departure). -/
structure Boat where
  id : Nat
  length : ℚ
  width : ℚ
  arrival : ℚ
  departure : ℚ
deriving Repr, DecidableEq

/-- Modelled from the spec: the Slot of §3 — identifier, owning dock,
physical dimensions, maximum boat dimensions, price (the slot category and
administrative status play no role in the feasibility predicates of §4.2 as
quoted for this claim). -/
structure EngineSlot where
  id : Nat
  dock_id : Nat
  width : ℚ
  length : ℚ
  max_boat_width : ℚ
  max_boat_length : ℚ
  price : ℚ
deriving Repr, DecidableEq

/-- Modelled from the spec: the Assignment of §3 — boat identifier, slot
identifier, effective interval [start, end). -/
structure Assignment where
  boat_id : Nat
  slot_id : Nat
  start_time : ℚ
  end_time : ℚ
deriving Repr, DecidableEq

/-- Modelled from the spec (§4.2): `overlaps(intervalA, intervalB)` — the
half-open interval intersection test; two intervals overlap iff
start_A < end_B and start_B < end_A. -/
def overlaps (startA endA startB endB : ℚ) : Bool :=
  decide (startA < endB) && decide (startB < endA)

/-- Modelled from the spec (§4.2): `fits(boat, slot)` — true iff
boat.length ≤ slot.max_boat_length and boat.width ≤ slot.max_boat_width. -/
def fits (boat : Boat) (slot : EngineSlot) : Bool :=
  decide (boat.length ≤ slot.max_boat_length) &&
    decide (boat.width ≤ slot.max_boat_width)

/-- The assignments of an accumulated set that occupy a given slot. -/
def assignmentsForSlot (assignments : List Assignment) (slotId : Nat) :
    List Assignment :=
  assignments.filter (fun a => a.slot_id == slotId)

/-- Modelled from the spec (§4.2):
`can_place(boat, slot, existing_assignments_for_slot)` — true iff `fits`
holds and the boat's interval does not overlap any existing interval
assigned to that slot. -/
def can_place (boat : Boat) (slot : EngineSlot)
    (existing : List Assignment) : Bool :=
  fits boat slot &&
    existing.all (fun a =>
      !overlaps boat.arrival boat.departure a.start_time a.end_time)

/-- The single legality gate of §4.2 in action: add the assignment
(boat, slot, boat's requested interval) only when `can_place` accepts it
against the assignments already occupying that slot; otherwise leave the
accumulator unchanged. Every strategy must route every placement decision
through this check. -/
def tryPlace (acc : List Assignment) (boat : Boat) (slot : EngineSlot) :
    List Assignment :=
  if can_place boat slot (assignmentsForSlot acc slot.id) then
    acc ++ [⟨boat.id, slot.id, boat.arrival, boat.departure⟩]
  else acc

/-- Modelled from the spec (§4.2–4.3): a strategy run as a sequence of
candidate placement decisions, each routed through `can_place` via
`tryPlace` — this covers every strategy of the library, which differ only
in which (boat, slot) candidates they try and in what order. -/
def placeAll (steps : List (Boat × EngineSlot)) : List Assignment :=
  steps.foldl (fun acc step => tryPlace acc step.1 step.2) []

/-- Modelled from the spec (§4.3, first-fit family): boats in input order,
each placed on the first slot `can_place` accepts, skipped when none
does. -/
def firstFit (boats : List Boat) (slots : List EngineSlot) :
    List Assignment :=
  boats.foldl (fun acc boat =>
    match slots.find? (fun slot =>
        can_place boat slot (assignmentsForSlot acc slot.id)) with
    | some slot => acc ++ [⟨boat.id, slot.id, boat.arrival, boat.departure⟩]
    | none => acc) []

/-- Zero double-booking: no two assignments of the set share a slot with
overlapping half-open intervals. -/
def NoDoubleBooking (assignments : List Assignment) : Prop :=
  assignments.Pairwise (fun a b => a.slot_id = b.slot_id →
    overlaps a.start_time a.end_time b.start_time b.end_time = false)

/-- The half-open overlap test is symmetric. -/
theorem overlaps_comm (startA endA startB endB : ℚ) :
    overlaps startA endA startB endB = overlaps startB endB startA endA := by
  unfold overlaps
  exact Bool.and_comm _ _

/-- Appending an assignment accepted by `can_place` against the slot's
existing assignments preserves zero double-booking. -/
theorem noDoubleBooking_append (acc : List Assignment) (boat : Boat)
    (slot : EngineSlot) (hacc : NoDoubleBooking acc)
    (hok : can_place boat slot (assignmentsForSlot acc slot.id) = true) :
    NoDoubleBooking
      (acc ++ [⟨boat.id, slot.id, boat.arrival, boat.departure⟩]) := by
  obtain ⟨_, hall⟩ := Bool.and_eq_true_iff.mp hok
  rw [NoDoubleBooking, List.pairwise_append]
  refine ⟨hacc, List.pairwise_singleton _ _, ?_⟩
  intro a ha b hb hslot
  have hb' : b = ⟨boat.id, slot.id, boat.arrival, boat.departure⟩ :=
    List.mem_singleton.mp hb
  have haslot : a.slot_id = slot.id := by
    rw [hb'] at hslot
    exact hslot
  have hafilter : a ∈ assignmentsForSlot acc slot.id := by
    unfold assignmentsForSlot
    exact List.mem_filter.mpr ⟨ha, beq_iff_eq.mpr haslot⟩
  have hnot := List.all_eq_true.mp hall a hafilter
  have hoverlap : overlaps boat.arrival boat.departure a.start_time a.end_time
      = false := by simpa using hnot
  rw [hb']
  rw [overlaps_comm]
  exact hoverlap

/-- The checked-placement fold preserves zero double-booking from any
accumulator that has it. -/
theorem foldl_tryPlace_noDoubleBooking (steps : List (Boat × EngineSlot))
    (acc : List Assignment) (hacc : NoDoubleBooking acc) :
    NoDoubleBooking
      (steps.foldl (fun acc step => tryPlace acc step.1 step.2) acc) := by
  induction steps generalizing acc with
  | nil => exact hacc
  | cons step rest ih =>
    rw [List.foldl_cons]
    refine ih (tryPlace acc step.1 step.2) ?_
    unfold tryPlace
    by_cases hok : can_place step.1 step.2
        (assignmentsForSlot acc step.2.id) = true
    · rw [if_pos hok]
      exact noDoubleBooking_append acc step.1 step.2 hacc hok
    · rw [if_neg hok]
      exact hacc

/-- C3: zero double-booking — every assignment set produced by a strategy
run that routes each placement decision through `can_place` (the §4.2
single point of truth, here any `placeAll` candidate sequence and the
first-fit strategy in particular) has pairwise non-overlapping half-open
intervals on every slot. -/
theorem strategy_run_no_double_booking (steps : List (Boat × EngineSlot))
    (boats : List Boat) (slots : List EngineSlot) :
    NoDoubleBooking (placeAll steps) ∧
      NoDoubleBooking (firstFit boats slots) := by
  constructor
  · exact foldl_tryPlace_noDoubleBooking steps [] List.Pairwise.nil
  · unfold firstFit
    have key : ∀ (bs : List Boat) (acc : List Assignment),
        NoDoubleBooking acc →
        NoDoubleBooking (bs.foldl (fun acc boat =>
          match slots.find? (fun slot =>
              can_place boat slot (assignmentsForSlot acc slot.id)) with
          | some slot => acc ++ [⟨boat.id, slot.id, boat.arrival, boat.departure⟩]
          | none => acc) acc) := by
      intro bs
      induction bs with
      | nil => intro acc hacc; exact hacc
      | cons boat rest ih =>
        intro acc hacc
        rw [List.foldl_cons]
        refine ih _ ?_
        cases hfind : slots.find? (fun slot =>
            can_place boat slot (assignmentsForSlot acc slot.id)) with
        | none => simpa [hfind] using hacc
        | some slot =>
          have hok : can_place boat slot (assignmentsForSlot acc slot.id)
              = true := by
            have h := List.find?_some hfind
            simpa using h
          simpa [hfind] using noDoubleBooking_append acc boat slot hacc hok
    exact key boats [] List.Pairwise.nil

end HarbourPlanner
